import Mathlib

/-!
Shallow embedding of the asynchronous job orchestration engine in
`airbyte_cdk/sources/declarative/async_job/job_orchestrator.py`.

Conventions of the embedding:
* Python objects become Lean structures; in-place mutation becomes explicit
  state passing.
* `StreamSlice` values and remote job ids are opaque to the orchestrator, so
  they are modelled as `Nat`.
* Jobs are compared by value; in the Python code jobs are dictionary keys
  compared by object identity, and every job carries a distinct remote id, so
  value comparison is an adequate proxy for identity.
* Fallible Python code (raising exceptions) returns `Option`/`Except` or an
  explicit error component.
-/

/-- Translation of `AsyncJobStatus` (the closed `Status` enum with members
`RUNNING`, `COMPLETED`, `FAILED`, `TIMED_OUT`). -/
inductive AsyncJobStatus where
  | RUNNING
  | COMPLETED
  | FAILED
  | TIMED_OUT
deriving DecidableEq

/-- Translation of `AsyncJob`: remote id, originating slice parameters and the
current (repository-refreshed) status. -/
structure AsyncJob where
  api_job_id : Nat
  job_parameters : Nat
  status : AsyncJobStatus
deriving DecidableEq

/-- Translation of `AsyncPartition._MAX_NUMBER_OF_ATTEMPTS = 3`. -/
def MAX_NUMBER_OF_ATTEMPTS : Nat := 3

/-- Translation of `AsyncPartition`: the per-job attempt-count mapping
(`_attempts_per_job`, a dict, modelled as an association list in insertion
order) and the slice (`_stream_slice`). -/
structure AsyncPartition where
  attempts_per_job : List (AsyncJob × Nat)
  stream_slice : Nat
deriving DecidableEq

/-- Translation of the `AsyncPartition.jobs` property
(`self._attempts_per_job.keys()`). -/
def AsyncPartition.jobs (p : AsyncPartition) : List AsyncJob :=
  p.attempts_per_job.map Prod.fst

/-- Translation of `AsyncPartition.has_reached_max_attempt`:
`any(attempt_count >= _MAX_NUMBER_OF_ATTEMPTS for ...)`. -/
def AsyncPartition.has_reached_max_attempt (p : AsyncPartition) : Bool :=
  p.attempts_per_job.any (fun e => MAX_NUMBER_OF_ATTEMPTS ≤ e.2)

/-- Translation of `AsyncPartition.replace_job`.  The first component is the
raised `ValueError` message (`none` when no exception is raised), the second is
the state of the partition when the call returns or the exception leaves it:
`pop` removes the entry before either check, so on the max-attempt error path
the popped entry is not restored (the Python message interpolates the stream
slice; the model keeps the constant prefix only). -/
def AsyncPartition.replace_job (p : AsyncPartition) (job_to_replace : AsyncJob)
    (new_jobs : List AsyncJob) : Option String × AsyncPartition :=
  match p.attempts_per_job.find? (fun e => e.1 == job_to_replace) with
  | none => (some "Could not find job to replace", p)
  | some e =>
      let popped : AsyncPartition :=
        { p with attempts_per_job := p.attempts_per_job.eraseP (fun x => x.1 == job_to_replace) }
      if MAX_NUMBER_OF_ATTEMPTS ≤ e.2 then
        (some "Max attempt reached for job in partition", popped)
      else
        (none, { popped with
            attempts_per_job :=
              popped.attempts_per_job ++ new_jobs.map (fun j => (j, e.2 + 1)) })

/-- Translation of the `AsyncPartition.status` property: the set of job
statuses is compared with the singleton set containing `COMPLETED` (which for a
list of statuses means: non-empty and all `COMPLETED`), then `FAILED` and
`TIMED_OUT` membership are tested in priority order, and `RUNNING` is the
fallback. -/
def AsyncPartition.status (p : AsyncPartition) : AsyncJobStatus :=
  let statuses := p.jobs.map AsyncJob.status
  if !statuses.isEmpty && statuses.all (fun s => s == AsyncJobStatus.COMPLETED) then
    AsyncJobStatus.COMPLETED
  else if statuses.any (fun s => s == AsyncJobStatus.FAILED) then
    AsyncJobStatus.FAILED
  else if statuses.any (fun s => s == AsyncJobStatus.TIMED_OUT) then
    AsyncJobStatus.TIMED_OUT
  else
    AsyncJobStatus.RUNNING

/-- Helper: the aggregate status is `COMPLETED` exactly for a non-empty
partition all of whose jobs are `COMPLETED`. -/
theorem AsyncPartition.status_eq_completed_iff (p : AsyncPartition) :
    p.status = AsyncJobStatus.COMPLETED ↔
      p.jobs ≠ [] ∧ ∀ j ∈ p.jobs, j.status = AsyncJobStatus.COMPLETED := by
  unfold AsyncPartition.status
  by_cases h1 : p.jobs = []
  · simp [h1]
  · by_cases h2 : ∀ j ∈ p.jobs, j.status = AsyncJobStatus.COMPLETED
    · have hb : (!(p.jobs.map AsyncJob.status).isEmpty &&
          (p.jobs.map AsyncJob.status).all (fun s => s == AsyncJobStatus.COMPLETED)) = true := by
        simp [List.isEmpty_iff, h1]
        intro j hj
        exact h2 j hj
      simp [hb, h1]
      exact h2
    · have hb : (!(p.jobs.map AsyncJob.status).isEmpty &&
          (p.jobs.map AsyncJob.status).all (fun s => s == AsyncJobStatus.COMPLETED)) = false := by
        simp [List.isEmpty_iff, h1]
        push_neg at h2
        obtain ⟨j, hj, hne⟩ := h2
        exact ⟨j, hj, hne⟩
      simp only [hb, Bool.false_eq_true, if_false]
      constructor
      · intro h
        exfalso
        split at h
        · exact absurd h (by decide)
        · split at h
          · exact absurd h (by decide)
          · exact absurd h (by decide)
      · intro h
        exact absurd h.2 h2

/-- Helper: any `FAILED` job forces aggregate status `FAILED`. -/
theorem AsyncPartition.status_eq_failed_of_mem (p : AsyncPartition)
    (j : AsyncJob) (hj : j ∈ p.jobs) (hf : j.status = AsyncJobStatus.FAILED) :
    p.status = AsyncJobStatus.FAILED := by
  unfold AsyncPartition.status
  have hne : p.jobs ≠ [] := by
    intro h
    rw [h] at hj
    exact absurd hj (List.not_mem_nil j)
  have hb : (!(p.jobs.map AsyncJob.status).isEmpty &&
      (p.jobs.map AsyncJob.status).all (fun s => s == AsyncJobStatus.COMPLETED)) = false := by
    simp [List.isEmpty_iff, hne]
    exact ⟨j, hj, by simp [hf]⟩
  have hf2 : ((p.jobs.map AsyncJob.status).any
      (fun s => s == AsyncJobStatus.FAILED)) = true := by
    simp
    exact ⟨j, hj, hf⟩
  simp [hb, hf2]

/-- Helper: with no `FAILED` job, a `TIMED_OUT` job forces aggregate status
`TIMED_OUT`. -/
theorem AsyncPartition.status_eq_timed_out (p : AsyncPartition)
    (hnf : ∀ j ∈ p.jobs, j.status ≠ AsyncJobStatus.FAILED)
    (j : AsyncJob) (hj : j ∈ p.jobs) (ht : j.status = AsyncJobStatus.TIMED_OUT) :
    p.status = AsyncJobStatus.TIMED_OUT := by
  unfold AsyncPartition.status
  have hne : p.jobs ≠ [] := by
    intro h
    rw [h] at hj
    exact absurd hj (List.not_mem_nil j)
  have hb : (!(p.jobs.map AsyncJob.status).isEmpty &&
      (p.jobs.map AsyncJob.status).all (fun s => s == AsyncJobStatus.COMPLETED)) = false := by
    simp [List.isEmpty_iff, hne]
    exact ⟨j, hj, by simp [ht]⟩
  have hf2 : ((p.jobs.map AsyncJob.status).any
      (fun s => s == AsyncJobStatus.FAILED)) = false := by
    simp
    exact hnf
  have ht2 : ((p.jobs.map AsyncJob.status).any
      (fun s => s == AsyncJobStatus.TIMED_OUT)) = true := by
    simp
    exact ⟨j, hj, ht⟩
  simp [hb, hf2, ht2]

/-- Helper: with no `FAILED` or `TIMED_OUT` job and not all jobs `COMPLETED`,
the aggregate status is `RUNNING`. -/
theorem AsyncPartition.status_eq_running (p : AsyncPartition)
    (hnf : ∀ j ∈ p.jobs, j.status ≠ AsyncJobStatus.FAILED)
    (hnt : ∀ j ∈ p.jobs, j.status ≠ AsyncJobStatus.TIMED_OUT)
    (hnc : ¬ (p.jobs ≠ [] ∧ ∀ j ∈ p.jobs, j.status = AsyncJobStatus.COMPLETED)) :
    p.status = AsyncJobStatus.RUNNING := by
  unfold AsyncPartition.status
  have hb : (!(p.jobs.map AsyncJob.status).isEmpty &&
      (p.jobs.map AsyncJob.status).all (fun s => s == AsyncJobStatus.COMPLETED)) = false := by
    by_cases hj : p.jobs = []
    · simp [hj]
    · have h2 : ¬ ∀ j ∈ p.jobs, j.status = AsyncJobStatus.COMPLETED :=
        fun hall => hnc ⟨hj, hall⟩
      simp [List.isEmpty_iff, hj]
      push_neg at h2
      obtain ⟨j, hjm, hne⟩ := h2
      exact ⟨j, hjm, hne⟩
  have hf2 : ((p.jobs.map AsyncJob.status).any
      (fun s => s == AsyncJobStatus.FAILED)) = false := by
    simp
    exact hnf
  have ht2 : ((p.jobs.map AsyncJob.status).any
      (fun s => s == AsyncJobStatus.TIMED_OUT)) = false := by
    simp
    exact hnt
  simp [hb, hf2, ht2]

/-- C3: for every non-empty partition the aggregate status follows the priority
derivation: all jobs `COMPLETED` gives `COMPLETED` (and conversely), otherwise
any `FAILED` job gives `FAILED`, otherwise any `TIMED_OUT` job gives
`TIMED_OUT`, otherwise `RUNNING`; in particular the status is `COMPLETED` iff
every contained job is `COMPLETED`. -/
theorem c3_partition_status_priority_order (p : AsyncPartition) (hne : p.jobs ≠ []) :
    (p.status = AsyncJobStatus.COMPLETED ↔ ∀ j ∈ p.jobs, j.status = AsyncJobStatus.COMPLETED) ∧
    ((∃ j ∈ p.jobs, j.status = AsyncJobStatus.FAILED) → p.status = AsyncJobStatus.FAILED) ∧
    ((∀ j ∈ p.jobs, j.status ≠ AsyncJobStatus.FAILED) →
      (∃ j ∈ p.jobs, j.status = AsyncJobStatus.TIMED_OUT) →
      p.status = AsyncJobStatus.TIMED_OUT) ∧
    ((∀ j ∈ p.jobs, j.status ≠ AsyncJobStatus.FAILED) →
      (∀ j ∈ p.jobs, j.status ≠ AsyncJobStatus.TIMED_OUT) →
      (¬ ∀ j ∈ p.jobs, j.status = AsyncJobStatus.COMPLETED) →
      p.status = AsyncJobStatus.RUNNING) := by
  refine ⟨?_, ?_, ?_, ?_⟩
  · rw [AsyncPartition.status_eq_completed_iff]
    constructor
    · intro h
      exact h.2
    · intro h
      exact ⟨hne, h⟩
  · intro ⟨j, hj, hf⟩
    exact AsyncPartition.status_eq_failed_of_mem p j hj hf
  · intro hnf ⟨j, hj, ht⟩
    exact AsyncPartition.status_eq_timed_out p hnf j hj ht
  · intro hnf hnt hnc
    exact AsyncPartition.status_eq_running p hnf hnt (fun h => hnc h.2)

/-- Witness for C3 at a concrete two-job partition. -/
theorem c3_partition_status_priority_order_witness :
    let j1 : AsyncJob := { api_job_id := 1, job_parameters := 0, status := AsyncJobStatus.COMPLETED }
    let j2 : AsyncJob := { api_job_id := 2, job_parameters := 0, status := AsyncJobStatus.FAILED }
    let p : AsyncPartition := { attempts_per_job := [(j1, 1), (j2, 1)], stream_slice := 0 }
    (p.status = AsyncJobStatus.COMPLETED ↔ ∀ j ∈ p.jobs, j.status = AsyncJobStatus.COMPLETED) ∧
    ((∃ j ∈ p.jobs, j.status = AsyncJobStatus.FAILED) → p.status = AsyncJobStatus.FAILED) ∧
    ((∀ j ∈ p.jobs, j.status ≠ AsyncJobStatus.FAILED) →
      (∃ j ∈ p.jobs, j.status = AsyncJobStatus.TIMED_OUT) →
      p.status = AsyncJobStatus.TIMED_OUT) ∧
    ((∀ j ∈ p.jobs, j.status ≠ AsyncJobStatus.FAILED) →
      (∀ j ∈ p.jobs, j.status ≠ AsyncJobStatus.TIMED_OUT) →
      (¬ ∀ j ∈ p.jobs, j.status = AsyncJobStatus.COMPLETED) →
      p.status = AsyncJobStatus.RUNNING) :=
  c3_partition_status_priority_order _ (by decide)

/-- C10: a partition with an empty job set has aggregate status `RUNNING` and
in particular is never reported `COMPLETED` (the set of statuses is empty, so
the comparison with the singleton set fails and no membership branch fires). -/
theorem c10_empty_partition_status_running (p : AsyncPartition)
    (h : p.attempts_per_job = []) :
    p.status = AsyncJobStatus.RUNNING ∧ p.status ≠ AsyncJobStatus.COMPLETED := by
  have hj : p.jobs = [] := by simp [AsyncPartition.jobs, h]
  constructor
  · unfold AsyncPartition.status
    simp [hj]
  · intro hcon
    exact ((AsyncPartition.status_eq_completed_iff p).1 hcon).1 hj

/-- Witness for C10 at the concrete empty partition. -/
theorem c10_empty_partition_status_running_witness :
    ({ attempts_per_job := [], stream_slice := 7 } : AsyncPartition).status =
        AsyncJobStatus.RUNNING ∧
      ({ attempts_per_job := [], stream_slice := 7 } : AsyncPartition).status ≠
        AsyncJobStatus.COMPLETED :=
  c10_empty_partition_status_running _ rfl

/-- Helper: erasing the first entry keyed by `j` from an association list with
no duplicate keys leaves no entry keyed by `j`. -/
theorem key_not_mem_eraseP_map_fst (l : List (AsyncJob × Nat)) (j : AsyncJob)
    (hnd : (l.map Prod.fst).Nodup) :
    j ∉ (l.eraseP (fun x => x.1 == j)).map Prod.fst := by
  induction l with
  | nil => simp
  | cons e t ih =>
      by_cases he : e.1 = j
      · have : (e :: t).eraseP (fun x => x.1 == j) = t := by
          simp [List.eraseP_cons, he]
        rw [this]
        have := (List.nodup_cons.1 hnd).1
        rw [he] at this
        exact this
      · have : (e :: t).eraseP (fun x => x.1 == j) =
            e :: t.eraseP (fun x => x.1 == j) := by
          simp [List.eraseP_cons, he]
        rw [this]
        simp only [List.map_cons, List.mem_cons]
        intro hcon
        rcases hcon with hcon | hcon
        · exact he hcon.symm
        · exact ih (List.nodup_cons.1 hnd).2 hcon

/-- C6: `replace_job` raises exactly when the named job is absent from the
partition or the entry found for it has attempt count at least
`MAX_NUMBER_OF_ATTEMPTS = 3`; on success the replaced entry is removed and
every replacement job is recorded with attempt count one greater than the
replaced entry's. -/
theorem c6_replace_job_contract (p : AsyncPartition) (j : AsyncJob)
    (new_jobs : List AsyncJob) :
    (p.attempts_per_job.find? (fun x => x.1 == j) = none ↔ j ∉ p.jobs) ∧
    ((p.replace_job j new_jobs).1.isSome = true ↔
      (p.attempts_per_job.find? (fun x => x.1 == j) = none ∨
        ∃ e, p.attempts_per_job.find? (fun x => x.1 == j) = some e ∧ 3 ≤ e.2)) ∧
    (p.attempts_per_job.find? (fun x => x.1 == j) = none →
      p.replace_job j new_jobs = (some "Could not find job to replace", p)) ∧
    (∀ e, p.attempts_per_job.find? (fun x => x.1 == j) = some e → e.2 < 3 →
      p.replace_job j new_jobs =
        (none, { p with attempts_per_job :=
            p.attempts_per_job.eraseP (fun x => x.1 == j) ++
              new_jobs.map (fun nj => (nj, e.2 + 1)) })) ∧
    (∀ e, p.attempts_per_job.find? (fun x => x.1 == j) = some e → e.2 < 3 →
      (p.attempts_per_job.map Prod.fst).Nodup → j ∉ new_jobs →
      j ∉ (p.replace_job j new_jobs).2.jobs) := by
  refine ⟨?_, ?_, ?_, ?_, ?_⟩
  · rw [List.find?_eq_none]
    constructor
    · intro h hmem
      simp [AsyncPartition.jobs] at hmem
      obtain ⟨n, hn⟩ := hmem
      exact absurd (by simp : ((j, n) : AsyncJob × Nat).1 == j) (h (j, n) hn)
    · intro h x hx
      simp only [beq_iff_eq]
      intro hcon
      apply h
      simp [AsyncPartition.jobs]
      exact ⟨x.2, by rw [← hcon]; exact hx⟩
  · rcases hf : p.attempts_per_job.find? (fun x => x.1 == j) with _ | e
    · simp [AsyncPartition.replace_job, hf]
    · by_cases hm : 3 ≤ e.2
      · simp [AsyncPartition.replace_job, hf, MAX_NUMBER_OF_ATTEMPTS, hm]
      · simp [AsyncPartition.replace_job, hf, MAX_NUMBER_OF_ATTEMPTS, hm]
  · intro h
    simp [AsyncPartition.replace_job, h]
  · intro e hf hlt
    simp [AsyncPartition.replace_job, hf, MAX_NUMBER_OF_ATTEMPTS, Nat.not_le.2 hlt]
  · intro e hf hlt hnd hnew
    have hrj : p.replace_job j new_jobs =
        (none, { p with attempts_per_job :=
            p.attempts_per_job.eraseP (fun x => x.1 == j) ++
              new_jobs.map (fun nj => (nj, e.2 + 1)) }) := by
      simp [AsyncPartition.replace_job, hf, MAX_NUMBER_OF_ATTEMPTS, Nat.not_le.2 hlt]
    rw [hrj]
    simp only [AsyncPartition.jobs, List.map_append, List.mem_append]
    intro hcon
    rcases hcon with hcon | hcon
    · exact key_not_mem_eraseP_map_fst p.attempts_per_job j hnd hcon
    · have hmem : j ∈ new_jobs := by simpa using hcon
      exact hnew hmem

/-- Witness for C6 at a concrete partition holding a single job at attempt
count 1, replaced by one new job. -/
theorem c6_replace_job_contract_witness :
    let j : AsyncJob := { api_job_id := 1, job_parameters := 5, status := AsyncJobStatus.FAILED }
    let nj : AsyncJob := { api_job_id := 2, job_parameters := 5, status := AsyncJobStatus.RUNNING }
    let p : AsyncPartition := { attempts_per_job := [(j, 1)], stream_slice := 5 }
    (p.attempts_per_job.find? (fun x => x.1 == j) = none ↔ j ∉ p.jobs) ∧
    ((p.replace_job j [nj]).1.isSome = true ↔
      (p.attempts_per_job.find? (fun x => x.1 == j) = none ∨
        ∃ e, p.attempts_per_job.find? (fun x => x.1 == j) = some e ∧ 3 ≤ e.2)) ∧
    (p.attempts_per_job.find? (fun x => x.1 == j) = none →
      p.replace_job j [nj] = (some "Could not find job to replace", p)) ∧
    (∀ e, p.attempts_per_job.find? (fun x => x.1 == j) = some e → e.2 < 3 →
      p.replace_job j [nj] =
        (none, { p with attempts_per_job :=
            p.attempts_per_job.eraseP (fun x => x.1 == j) ++
              ([nj]).map (fun nj0 => (nj0, e.2 + 1)) })) ∧
    (∀ e, p.attempts_per_job.find? (fun x => x.1 == j) = some e → e.2 < 3 →
      (p.attempts_per_job.map Prod.fst).Nodup → j ∉ [nj] →
      j ∉ (p.replace_job j [nj]).2.jobs) :=
  c6_replace_job_contract _ _ _

/-- C9: when `replace_job` raises the max-attempt error, the entry for the
replaced job was already popped and is not restored: the partition state left
behind by the exception is the original one with that entry erased, so (for
distinct keys) the job is no longer contained in the partition. -/
theorem c9_replace_job_max_attempt_not_atomic (p : AsyncPartition) (j : AsyncJob)
    (new_jobs : List AsyncJob) (e : AsyncJob × Nat)
    (hf : p.attempts_per_job.find? (fun x => x.1 == j) = some e) (hmax : 3 ≤ e.2) :
    p.replace_job j new_jobs =
      (some "Max attempt reached for job in partition",
        { p with attempts_per_job := p.attempts_per_job.eraseP (fun x => x.1 == j) }) ∧
    ((p.attempts_per_job.map Prod.fst).Nodup →
      j ∉ (p.replace_job j new_jobs).2.jobs) := by
  have hrj : p.replace_job j new_jobs =
      (some "Max attempt reached for job in partition",
        { p with attempts_per_job := p.attempts_per_job.eraseP (fun x => x.1 == j) }) := by
    simp [AsyncPartition.replace_job, hf, MAX_NUMBER_OF_ATTEMPTS, hmax]
  refine ⟨hrj, ?_⟩
  intro hnd
  rw [hrj]
  exact key_not_mem_eraseP_map_fst p.attempts_per_job j hnd

/-- Witness for C9 at a concrete partition whose single job is at the
max-attempt bound. -/
theorem c9_replace_job_max_attempt_not_atomic_witness :
    let j : AsyncJob := { api_job_id := 1, job_parameters := 5, status := AsyncJobStatus.FAILED }
    let p : AsyncPartition := { attempts_per_job := [(j, 3)], stream_slice := 5 }
    p.replace_job j [] =
      (some "Max attempt reached for job in partition",
        { p with attempts_per_job := p.attempts_per_job.eraseP (fun x => x.1 == j) }) ∧
    ((p.attempts_per_job.map Prod.fst).Nodup →
      j ∉ (p.replace_job j []).2.jobs) :=
  c9_replace_job_max_attempt_not_atomic _ _ _
    ({ api_job_id := 1, job_parameters := 5, status := AsyncJobStatus.FAILED }, 3)
    (by decide) (by decide)

/-- Modelled from the spec: the Job Tracker implementation (`job_tracker.py`)
is not part of the provided sources, only its call sites are.  Per the spec it
is an admission controller bounding concurrent in-flight jobs: it holds a
configured maximum and the outstanding (reserved-or-bound) slot ids. -/
structure JobTracker where
  limit : Nat
  jobs : List Nat
deriving DecidableEq

/-- Modelled from the spec: `try_to_get_intent` reserves a slot, failing with
`ConcurrentJobLimitReached` (modelled as `none`) when the number of
outstanding slots equals the configured maximum; on success the fresh intent
id is recorded as outstanding. -/
def JobTracker.try_to_get_intent (t : JobTracker) (fresh_intent : Nat) :
    Option (Nat × JobTracker) :=
  if t.limit ≤ t.jobs.length then none
  else some (fresh_intent, { t with jobs := t.jobs ++ [fresh_intent] })

/-- Modelled from the spec: `add_job` binds a previously reserved slot (or the
slot of the job being retried) to the concrete remote job id, keeping the
number of outstanding slots unchanged. -/
def JobTracker.add_job (t : JobTracker) (intent_or_previous_id new_job_id : Nat) : JobTracker :=
  { t with jobs := t.jobs.map (fun i => if i = intent_or_previous_id then new_job_id else i) }

/-- Modelled from the spec: `remove_job` releases the slot identified by a
remote job id (or an unbound intent id), making room for future
reservations. -/
def JobTracker.remove_job (t : JobTracker) (job_id : Nat) : JobTracker :=
  { t with jobs := t.jobs.filter (fun i => i != job_id) }

/-- Outcome of `AsyncJobOrchestrator._start_job`: the tracker state is carried
on every path, including the two exception paths. -/
inductive StartJobOutcome where
  | limitReached (tracker : JobTracker)
  | failed (tracker : JobTracker)
  | ok (job : AsyncJob) (tracker : JobTracker)
deriving DecidableEq

/-- Translation of the try-block body of `AsyncJobOrchestrator._start_job`
after `id_to_replace` is known: the repository `start` call is abstracted as
`repo_start_result` (`none` meaning it raises) and the tracker `add_job` bind
call as `bind_raises`; on either exception `remove_job(id_to_replace)` runs
before the exception propagates, on success the slot is bound to the new job
id. -/
def start_job_after_reserve (t : JobTracker) (id_to_replace : Nat)
    (repo_start_result : Option AsyncJob) (bind_raises : Bool) : StartJobOutcome :=
  match repo_start_result with
  | none => StartJobOutcome.failed (t.remove_job id_to_replace)
  | some job =>
      if bind_raises then StartJobOutcome.failed (t.remove_job id_to_replace)
      else StartJobOutcome.ok job (t.add_job id_to_replace job.api_job_id)

/-- Translation of `AsyncJobOrchestrator._start_job`: with a
`previous_job_id` the existing slot id is reused, otherwise a slot intent is
reserved via `try_to_get_intent` (whose `ConcurrentJobLimitReached` propagates
untouched, no slot having been taken). -/
def start_job (t : JobTracker) (fresh_intent : Nat) (previous_job_id : Option Nat)
    (repo_start_result : Option AsyncJob) (bind_raises : Bool) : StartJobOutcome :=
  match previous_job_id with
  | some pid => start_job_after_reserve t pid repo_start_result bind_raises
  | none =>
      match t.try_to_get_intent fresh_intent with
      | none => StartJobOutcome.limitReached t
      | some (intent, t1) => start_job_after_reserve t1 intent repo_start_result bind_raises

/-- Helper: filtering out an element not present leaves a list unchanged. -/
theorem filter_ne_of_not_mem (l : List Nat) (x : Nat) (h : x ∉ l) :
    l.filter (fun i => i != x) = l := by
  induction l with
  | nil => rfl
  | cons a t ih =>
      have hax : a ≠ x := fun hc => h (hc ▸ List.mem_cons_self a t)
      have hm : x ∉ t := fun hc => h (List.mem_cons_of_mem a hc)
      simp [List.filter_cons, hax, ih hm]

/-- Helper: rebinding an id not present in the list is the identity map. -/
theorem map_rebind_of_not_mem (l : List Nat) (x y : Nat) (h : x ∉ l) :
    l.map (fun i => if i = x then y else i) = l := by
  induction l with
  | nil => rfl
  | cons a t ih =>
      have hax : a ≠ x := fun hc => h (hc ▸ List.mem_cons_self a t)
      have hm : x ∉ t := fun hc => h (List.mem_cons_of_mem a hc)
      simp [hax, ih hm]

/-- C7: `_start_job` never leaks a tracker slot on its error path.  When a new
slot intent is reserved (fresh, with room available) and the remote start or
the bind subsequently raises, the tracker is restored to its original state
before the exception propagates; when an existing slot id is reused and the
start or bind raises, that slot is released; on success of either path the
slot is bound to the new job's remote id. -/
theorem c7_start_job_no_slot_leak (t : JobTracker) (fresh_intent : Nat)
    (repo_start_result : Option AsyncJob) (bind_raises : Bool)
    (hfresh : fresh_intent ∉ t.jobs) (hroom : t.jobs.length < t.limit) :
    ((repo_start_result = none ∨ bind_raises = true) →
      start_job t fresh_intent none repo_start_result bind_raises =
        StartJobOutcome.failed t) ∧
    (∀ job, repo_start_result = some job → bind_raises = false →
      start_job t fresh_intent none repo_start_result bind_raises =
        StartJobOutcome.ok job { t with jobs := t.jobs ++ [job.api_job_id] }) ∧
    (∀ pid, (repo_start_result = none ∨ bind_raises = true) →
      start_job t fresh_intent (some pid) repo_start_result bind_raises =
        StartJobOutcome.failed (t.remove_job pid) ∧
      pid ∉ (t.remove_job pid).jobs) ∧
    (∀ pid job, repo_start_result = some job → bind_raises = false →
      start_job t fresh_intent (some pid) repo_start_result bind_raises =
        StartJobOutcome.ok job (t.add_job pid job.api_job_id) ∧
      (t.add_job pid job.api_job_id).jobs.length = t.jobs.length) := by
  have hint : t.try_to_get_intent fresh_intent =
      some (fresh_intent, { t with jobs := t.jobs ++ [fresh_intent] }) := by
    simp [JobTracker.try_to_get_intent, Nat.not_le.2 hroom]
  have hrestore : ({ t with jobs := t.jobs ++ [fresh_intent] } : JobTracker).remove_job
      fresh_intent = t := by
    simp only [JobTracker.remove_job, List.filter_append]
    rw [filter_ne_of_not_mem t.jobs fresh_intent hfresh]
    simp
  refine ⟨?_, ?_, ?_, ?_⟩
  · intro h
    rcases h with h | h
    · simp [start_job, hint, start_job_after_reserve, h, hrestore]
    · cases repo_start_result with
      | none => simp [start_job, hint, start_job_after_reserve, hrestore]
      | some job => simp [start_job, hint, start_job_after_reserve, h, hrestore]
  · intro job hjob hb
    have hbind : ({ t with jobs := t.jobs ++ [fresh_intent] } : JobTracker).add_job
        fresh_intent job.api_job_id = { t with jobs := t.jobs ++ [job.api_job_id] } := by
      simp only [JobTracker.add_job, List.map_append]
      rw [map_rebind_of_not_mem t.jobs fresh_intent job.api_job_id hfresh]
      simp
    simp [start_job, hint, start_job_after_reserve, hjob, hb, hbind]
  · intro pid h
    constructor
    · rcases h with h | h
      · simp [start_job, start_job_after_reserve, h]
      · cases repo_start_result with
        | none => simp [start_job, start_job_after_reserve]
        | some job => simp [start_job, start_job_after_reserve, h]
    · simp [JobTracker.remove_job, List.mem_filter]
  · intro pid job hjob hb
    constructor
    · simp [start_job, start_job_after_reserve, hjob, hb]
    · simp [JobTracker.add_job]

/-- Witness for C7 at a concrete tracker with one bound slot and room for a
second. -/
theorem c7_start_job_no_slot_leak_witness :
    let t : JobTracker := { limit := 2, jobs := [10] }
    let job : AsyncJob := { api_job_id := 42, job_parameters := 0, status := AsyncJobStatus.RUNNING }
    ((some job = none ∨ false = true) →
      start_job t 99 none (some job) false = StartJobOutcome.failed t) ∧
    (∀ j, some job = some j → false = false →
      start_job t 99 none (some job) false =
        StartJobOutcome.ok j { t with jobs := t.jobs ++ [j.api_job_id] }) ∧
    (∀ pid, (some job = none ∨ false = true) →
      start_job t 99 (some pid) (some job) false =
        StartJobOutcome.failed (t.remove_job pid) ∧
      pid ∉ (t.remove_job pid).jobs) ∧
    (∀ pid j, some job = some j → false = false →
      start_job t 99 (some pid) (some job) false =
        StartJobOutcome.ok j (t.add_job pid j.api_job_id) ∧
      (t.add_job pid j.api_job_id).jobs.length = t.jobs.length) :=
  c7_start_job_no_slot_leak _ 99 _ false (by decide) (by decide)

/-- Translation of the orchestrator's mutable state from
`AsyncJobOrchestrator.__init__` plus two ghost history fields.  `next_id` is
the source of fresh slot-intent and remote job ids (uuids in Python);
`started_slices` records, in order, every slice for which a job start
succeeded, and `aborted_jobs` records every repository `abort` call together
with whether the job's slot allocation was freed.  The ghost fields are
write-only logs and influence no control decision. -/
structure OrchestratorState where
  slice_iterator : List Nat
  running_partitions : List AsyncPartition
  job_tracker : JobTracker
  has_started_a_job : Bool
  has_consumed_every_slice : Bool
  non_breaking_exceptions : List String
  next_id : Nat
  started_slices : List Nat
  aborted_jobs : List (Nat × Bool)
deriving DecidableEq

/-- Translation of `AsyncJobOrchestrator.__init__` for a fresh orchestrator
over the given slices and a tracker with the given concurrency limit.  Note
the faithful oddity of the source: `_has_consumed_every_slice` is initialized
to `True` (line 107) and is never assigned `False` anywhere. -/
def initial_state (slices : List Nat) (limit : Nat) : OrchestratorState :=
  { slice_iterator := slices
    running_partitions := []
    job_tracker := { limit := limit, jobs := [] }
    has_started_a_job := false
    has_consumed_every_slice := true
    non_breaking_exceptions := []
    next_id := 0
    started_slices := []
    aborted_jobs := [] }

/-- Deterministic-repository instantiation of `_start_job` on the retry path
(`previous_job_id` given): the repository `start` succeeds and returns a fresh
`RUNNING` job for the same slice parameters, and `add_job` rebinds the
previous job's slot to the new job id — no new slot is reserved. -/
def start_job_reuse_det (s : OrchestratorState) (slice : Nat) (previous_job_id : Nat) :
    AsyncJob × OrchestratorState :=
  let job : AsyncJob := { api_job_id := s.next_id, job_parameters := slice,
                          status := AsyncJobStatus.RUNNING }
  (job, { s with job_tracker := s.job_tracker.add_job previous_job_id job.api_job_id
                 next_id := s.next_id + 1
                 started_slices := s.started_slices ++ [slice] })

/-- Translation of `_replace_failed_jobs` (deterministic repository): walk the
`FAILED`/`TIMED_OUT` jobs of one partition, starting a replacement for each
(reusing the slot of the replaced job id) and calling `replace_job`; a
`ValueError` from `replace_job` propagates at once, leaving the updates made
so far in place. -/
def replace_failed_jobs_go (s : OrchestratorState) (p : AsyncPartition) :
    List AsyncJob → Option String × OrchestratorState × AsyncPartition
  | [] => (none, s, p)
  | j :: rest =>
      match start_job_reuse_det s j.job_parameters j.api_job_id with
      | (new_job, s1) =>
          match p.replace_job j [new_job] with
          | (some msg, p1) => (some msg, s1, p1)
          | (none, p1) => replace_failed_jobs_go s1 p1 rest

/-- The jobs `_replace_failed_jobs` selects for replacement:
`job.status() in (FAILED, TIMED_OUT)`. -/
def jobs_to_replace (p : AsyncPartition) : List AsyncJob :=
  p.jobs.filter (fun j =>
    j.status == AsyncJobStatus.FAILED || j.status == AsyncJobStatus.TIMED_OUT)

/-- Translation of the retry pass of `_start_jobs`
(`for partition in self._running_partitions: self._replace_failed_jobs(partition)`):
partitions are processed in order; an error short-circuits the pass but keeps
every in-place partition mutation made so far. -/
def retry_pass_go (s : OrchestratorState) (done : List AsyncPartition) :
    List AsyncPartition → Option String × OrchestratorState
  | [] => (none, { s with running_partitions := done })
  | p :: rest =>
      match replace_failed_jobs_go s p (jobs_to_replace p) with
      | (none, s1, p1) => retry_pass_go s1 (done ++ [p1]) rest
      | (some msg, s1, p1) =>
          (some msg, { s1 with running_partitions := done ++ p1 :: rest })

/-- Translation of the admission loop of `_start_jobs` (deterministic
repository: `start` always succeeds with a fresh `RUNNING` job).  Slices are
pulled one at a time; each successful start appends a new single-job partition
and sets `_has_started_a_job`; `try_to_get_intent` raising
`ConcurrentJobLimitReached` is caught, the pulled slice is pushed back to the
front of the remaining input (`chain([_slice], self._slice_iterator)`), and
the pass returns silently; exhausting the input runs the for-else, setting
`_has_consumed_every_slice = True`. -/
def admission_go : List Nat → OrchestratorState → OrchestratorState
  | [], s => { s with slice_iterator := [], has_consumed_every_slice := true }
  | slice :: rest, s =>
      match s.job_tracker.try_to_get_intent s.next_id with
      | none => { s with slice_iterator := slice :: rest }
      | some (intent, t1) =>
          let job : AsyncJob := { api_job_id := s.next_id + 1, job_parameters := slice,
                                  status := AsyncJobStatus.RUNNING }
          admission_go rest
            { s with
              slice_iterator := rest
              job_tracker := t1.add_job intent job.api_job_id
              next_id := s.next_id + 2
              has_started_a_job := true
              running_partitions := s.running_partitions ++
                [{ attempts_per_job := [(job, 1)], stream_slice := slice }]
              started_slices := s.started_slices ++ [slice] }

/-- Translation of `_start_jobs` (deterministic repository): the retry pass
runs first, then the admission loop; only `ConcurrentJobLimitReached` is
handled inside, any `replace_job` error propagates to the main loop. -/
def start_jobs_det (s : OrchestratorState) : Option String × OrchestratorState :=
  match retry_pass_go s [] s.running_partitions with
  | (some msg, s1) => (some msg, s1)
  | (none, s1) => (none, admission_go s1.slice_iterator s1)

/-- Environment action on one job during the batched status refresh: the
deterministic repository completes every `RUNNING` job it is asked about. -/
def complete_running_job (j : AsyncJob) : AsyncJob :=
  if j.status == AsyncJobStatus.RUNNING then { j with status := AsyncJobStatus.COMPLETED } else j

/-- Translation of `_update_jobs_status` under the deterministic repository:
when at least one `RUNNING` job exists, the batched `update_jobs_status` call
refreshes every `RUNNING` job to `COMPLETED` (in place, so through the
partitions); otherwise the repository is not called. -/
def update_jobs_status_det (s : OrchestratorState) : OrchestratorState :=
  if s.running_partitions.any (fun p =>
      p.jobs.any (fun j => j.status == AsyncJobStatus.RUNNING)) then
    { s with running_partitions := s.running_partitions.map (fun p =>
        { p with attempts_per_job :=
            p.attempts_per_job.map (fun e => (complete_running_job e.1, e.2)) }) }
  else s

/-- Translation of `_abort_job` under a repository whose `abort` succeeds: the
abort is recorded in the ghost log and, when `free_job_allocation` is true,
the job's slot is released. -/
def abort_job_det (s : OrchestratorState) (j : AsyncJob) (free_job_allocation : Bool) :
    OrchestratorState :=
  let s1 := { s with aborted_jobs := s.aborted_jobs ++ [(j.api_job_id, free_job_allocation)] }
  if free_job_allocation then
    { s1 with job_tracker := s1.job_tracker.remove_job j.api_job_id }
  else s1

/-- Loop body sequence of `_stop_partition` over the partition job list. -/
def stop_partition_go (s : OrchestratorState) : List AsyncJob → OrchestratorState
  | [] => s
  | j :: rest =>
      stop_partition_go
        (if j.status == AsyncJobStatus.RUNNING || j.status == AsyncJobStatus.TIMED_OUT then
          abort_job_det s j true
        else { s with job_tracker := s.job_tracker.remove_job j.api_job_id }) rest

/-- Translation of `_stop_partition`: abort (and release) every `RUNNING` or
`TIMED_OUT` job of the partition, and release the slot of every other job. -/
def stop_partition (s : OrchestratorState) (p : AsyncPartition) : OrchestratorState :=
  stop_partition_go s p.jobs

/-- Loop body sequence of `_stop_timed_out_jobs` over the partition job list. -/
def stop_timed_out_jobs_go (s : OrchestratorState) : List AsyncJob → OrchestratorState
  | [] => s
  | j :: rest =>
      stop_timed_out_jobs_go
        (if j.status == AsyncJobStatus.TIMED_OUT then abort_job_det s j false else s) rest

/-- Translation of `_stop_timed_out_jobs`: abort every `TIMED_OUT` job of the
partition without freeing its allocation. -/
def stop_timed_out_jobs (s : OrchestratorState) (p : AsyncPartition) : OrchestratorState :=
  stop_timed_out_jobs_go s p.jobs

/-- Loop body sequence of the completed-job release loop over the job list. -/
def release_completed_jobs_go (s : OrchestratorState) : List AsyncJob → OrchestratorState
  | [] => s
  | j :: rest =>
      release_completed_jobs_go
        (if j.status == AsyncJobStatus.COMPLETED then
          { s with job_tracker := s.job_tracker.remove_job j.api_job_id }
        else s) rest

/-- Translation of the per-partition completed-job release loop at the end of
each triage step: every `COMPLETED` job's slot is released. -/
def release_completed_jobs (s : OrchestratorState) (p : AsyncPartition) : OrchestratorState :=
  release_completed_jobs_go s p.jobs

/-- Translation of the data the partition-failed `AirbyteTracedException` in
`_process_partitions_with_errors` is built from: its message is the constant
prefix plus the rendering of `status_by_job_id`, the mapping from each job's
remote id to its status.  Nothing else (in particular not the stream slice)
enters the exception. -/
def status_by_job_id (p : AsyncPartition) : List (Nat × AsyncJobStatus) :=
  p.jobs.map (fun j => (j.api_job_id, j.status))

/-- Result of `_process_running_partitions_and_yield_completed_ones`:
the yielded partitions, the accumulated `current_running_partitions` at the
moment the generator stopped, the partition-failed error payload (when the
max-attempt branch raised) and the resulting state. -/
structure TriageOutcome where
  yielded : List AsyncPartition
  new_running : List AsyncPartition
  error : Option (List (Nat × AsyncJobStatus))
  state : OrchestratorState
deriving DecidableEq

/-- Translation of `_process_running_partitions_and_yield_completed_ones`:
each tracked partition is matched on its aggregate status (`COMPLETED`: yield;
`RUNNING`: append to the accumulator; otherwise at max attempt: stop the
partition and raise the partition-failed error, skipping the rest of the
loop and the final list assignment; otherwise: abort timed-out jobs without
release and reinsert the partition at the front of the accumulator), then the
completed-job release loop runs; on normal completion
`self._running_partitions` is replaced with the accumulator. -/
def triage_go (s : OrchestratorState) (yielded current_running : List AsyncPartition) :
    List AsyncPartition → TriageOutcome
  | [] =>
      { yielded := yielded, new_running := current_running, error := none,
        state := { s with running_partitions := current_running } }
  | p :: rest =>
      if p.status == AsyncJobStatus.COMPLETED then
        triage_go (release_completed_jobs s p) (yielded ++ [p]) current_running rest
      else if p.status == AsyncJobStatus.RUNNING then
        triage_go (release_completed_jobs s p) yielded (current_running ++ [p]) rest
      else if p.has_reached_max_attempt then
        { yielded := yielded, new_running := current_running,
          error := some (status_by_job_id p), state := stop_partition s p }
      else
        triage_go (release_completed_jobs (stop_timed_out_jobs s p) p) yielded
          (p :: current_running) rest

/-- Result of running the main loop of `create_and_get_completed_partitions`
to completion (deterministic environment, no breaking exception classes
configured). -/
inductive RunResult where
  | finished (state : OrchestratorState) (yielded : List AsyncPartition)
  | partitionFatal (payload : List (Nat × AsyncJobStatus)) (state : OrchestratorState)
      (yielded : List AsyncPartition)
  | outOfFuel (state : OrchestratorState) (yielded : List AsyncPartition)
deriving DecidableEq

/-- Translation of the `while True` loop of
`create_and_get_completed_partitions` under the deterministic environment,
with explicit fuel.  Each iteration: `_start_jobs` (a `replace_job` error is
handled as non-breaking and appended to `_non_breaking_exceptions`), the
termination check
`(_has_started_a_job or _has_consumed_every_slice) and not _running_partitions`,
`_update_jobs_status`, the triage generator (whose partition-failed exception
propagates out of the loop), and the pacing sleep (a no-op in the model). -/
def run_det : Nat → OrchestratorState → List AsyncPartition → RunResult
  | 0, s, ys => RunResult.outOfFuel s ys
  | fuel + 1, s, ys =>
      let r := start_jobs_det s
      let s2 := match r.1 with
        | some msg =>
            { r.2 with non_breaking_exceptions := r.2.non_breaking_exceptions ++ [msg] }
        | none => r.2
      if (s2.has_started_a_job || s2.has_consumed_every_slice) &&
          s2.running_partitions.isEmpty then
        RunResult.finished s2 ys
      else
        let s3 := update_jobs_status_det s2
        let t := triage_go s3 [] [] s3.running_partitions
        match t.error with
        | some payload => RunResult.partitionFatal payload t.state (ys ++ t.yielded)
        | none => run_det fuel t.state (ys ++ t.yielded)

/-- Translation of the try-block body of `_abort_job`: the repository `abort`
call is abstracted as `abort_raises`; on success the slot is released when
`free_job_allocation` is set. -/
def abort_job_try_body (t : JobTracker) (job : AsyncJob) (free_job_allocation : Bool)
    (abort_raises : Bool) : Except String JobTracker :=
  if abort_raises then Except.error "repository abort raised"
  else if free_job_allocation then Except.ok (t.remove_job job.api_job_id)
  else Except.ok t

/-- Translation of `_abort_job`: any exception from the try body is caught,
logged and swallowed, leaving the tracker untouched — the call itself never
raises. -/
def abort_job (t : JobTracker) (job : AsyncJob) (free_job_allocation : Bool)
    (abort_raises : Bool) : Except String JobTracker :=
  match abort_job_try_body t job free_job_allocation abort_raises with
  | Except.error _ => Except.ok t
  | Except.ok t1 => Except.ok t1

/-- Translation of `_get_running_jobs` (as a list rather than a set). -/
def get_running_jobs (s : OrchestratorState) : List AsyncJob :=
  s.running_partitions.flatMap (fun p =>
    p.jobs.filter (fun j => j.status == AsyncJobStatus.RUNNING))

/-- Translation of `_get_timeout_jobs` (as a list rather than a set). -/
def get_timeout_jobs (s : OrchestratorState) : List AsyncJob :=
  s.running_partitions.flatMap (fun p =>
    p.jobs.filter (fun j => j.status == AsyncJobStatus.TIMED_OUT))

/-- Translation of `_abort_all_running_jobs`: it calls
`self._job_repository.abort(job)` directly — not `self._abort_job` — for every
running or timed-out job, inside no try/except, so the first failing abort
propagates; no slot is released either way; on success the tracked list is
cleared. -/
def abort_all_running_jobs (s : OrchestratorState) (abort_raises : Nat → Bool) :
    Except String OrchestratorState :=
  if (get_running_jobs s ++ get_timeout_jobs s).any (fun j => abort_raises j.api_job_id) then
    Except.error "repository abort raised"
  else Except.ok { s with running_partitions := [] }

/-- Translation of the breaking-error handler in
`create_and_get_completed_partitions`
(`except self._exceptions_to_break_on as e: self._abort_all_running_jobs(); raise e`):
the propagated error is the breaking error, unless `_abort_all_running_jobs`
itself raises, in which case that exception propagates in its place. -/
def handle_breaking_error (s : OrchestratorState) (breaking_error : String)
    (abort_raises : Nat → Bool) : String :=
  match abort_all_running_jobs s abort_raises with
  | Except.error e => e
  | Except.ok _ => breaking_error

/-- C1 (code-bug evidence): because `_has_consumed_every_slice` is initialized
to `True` in `__init__` and never assigned `False`, the termination check
fires as soon as no partitions are tracked.  With one slice and a tracker
whose concurrency limit is already reached, the loop terminates at its first
termination check even though the slice input is unexhausted and no job has
ever been started — contradicting the claimed termination condition.  (The
for-else in `_start_jobs` that sets the flag to `True` on exhaustion is dead
logic under this initialization.) -/
theorem c1_loop_terminates_despite_unexhausted_input :
    (initial_state [0] 0).has_consumed_every_slice = true ∧
    run_det 3 (initial_state [0] 0) [] = RunResult.finished (initial_state [0] 0) [] ∧
    (initial_state [0] 0).slice_iterator = [0] ∧
    (initial_state [0] 0).has_started_a_job = false ∧
    (initial_state [0] 0).started_slices = [] := by decide

/-- C8 (code-bug evidence): `_abort_job` itself swallows every abort failure
(first conjunct, over all inputs), but `_abort_all_running_jobs` bypasses it
and calls the repository `abort` raw: at a concrete state with one running
job whose abort raises, `_abort_all_running_jobs` propagates the exception,
and the breaking-error handler therefore propagates the abort exception in
place of the original breaking error. -/
theorem c8_abort_all_running_jobs_can_raise :
    (∀ (t : JobTracker) (job : AsyncJob) (free_job_allocation abort_raises : Bool),
      ∃ t1, abort_job t job free_job_allocation abort_raises = Except.ok t1) ∧
    (let j : AsyncJob := { api_job_id := 7, job_parameters := 0, status := AsyncJobStatus.RUNNING }
     let s : OrchestratorState :=
       { initial_state [] 1 with
           running_partitions := [{ attempts_per_job := [(j, 1)], stream_slice := 0 }] }
     abort_all_running_jobs s (fun i => i == 7) = Except.error "repository abort raised" ∧
     handle_breaking_error s "original breaking error" (fun i => i == 7) =
       "repository abort raised" ∧
     "repository abort raised" ≠ "original breaking error") := by
  constructor
  · intro t job free_job_allocation abort_raises
    cases abort_raises with
    | false =>
        cases free_job_allocation with
        | false => exact ⟨t, rfl⟩
        | true => exact ⟨t.remove_job job.api_job_id, rfl⟩
    | true => exact ⟨t, rfl⟩
  · exact ⟨rfl, rfl, by decide⟩

/-- Helper: releasing a slot removes every tracker occurrence of that id. -/
theorem remove_job_not_mem (t : JobTracker) (id : Nat) :
    id ∉ (t.remove_job id).jobs := by
  simp [JobTracker.remove_job, List.mem_filter]

/-- Helper: `_stop_partition` only ever removes tracker entries. -/
theorem stop_partition_go_tracker_subset (l : List AsyncJob) :
    ∀ (s : OrchestratorState) (i : Nat),
      i ∈ (stop_partition_go s l).job_tracker.jobs → i ∈ s.job_tracker.jobs := by
  induction l with
  | nil => intro s i hi; exact hi
  | cons j rest ih =>
      intro s i hi
      rw [stop_partition_go] at hi
      have h2 := ih _ i hi
      by_cases hc : (j.status == AsyncJobStatus.RUNNING ||
          j.status == AsyncJobStatus.TIMED_OUT) = true
      · rw [if_pos hc] at h2
        simp [abort_job_det, JobTracker.remove_job, List.mem_filter] at h2
        exact h2.1
      · rw [if_neg hc] at h2
        simp [JobTracker.remove_job, List.mem_filter] at h2
        exact h2.1

/-- Helper: `_stop_partition` releases the slot of every job of the
partition. -/
theorem stop_partition_go_removes (l : List AsyncJob) :
    ∀ (s : OrchestratorState) (j : AsyncJob), j ∈ l →
      j.api_job_id ∉ (stop_partition_go s l).job_tracker.jobs := by
  induction l with
  | nil => intro s j hj; exact absurd hj (List.not_mem_nil j)
  | cons a rest ih =>
      intro s j hj
      rw [stop_partition_go]
      rcases List.mem_cons.1 hj with heq | hj
      · subst heq
        intro hcon
        have h2 := stop_partition_go_tracker_subset rest _ _ hcon
        by_cases hc : (j.status == AsyncJobStatus.RUNNING ||
            j.status == AsyncJobStatus.TIMED_OUT) = true
        · rw [if_pos hc] at h2
          simp [abort_job_det, JobTracker.remove_job, List.mem_filter] at h2
        · rw [if_neg hc] at h2
          simp [JobTracker.remove_job, List.mem_filter] at h2
      · exact ih _ j hj

/-- Helper: the ghost abort log only grows along `_stop_partition`. -/
theorem stop_partition_go_aborted_monotone (l : List AsyncJob) :
    ∀ (s : OrchestratorState) (x : Nat × Bool), x ∈ s.aborted_jobs →
      x ∈ (stop_partition_go s l).aborted_jobs := by
  induction l with
  | nil => intro s x hx; exact hx
  | cons a rest ih =>
      intro s x hx
      rw [stop_partition_go]
      apply ih
      by_cases hc : (a.status == AsyncJobStatus.RUNNING ||
          a.status == AsyncJobStatus.TIMED_OUT) = true
      · rw [if_pos hc]
        simp [abort_job_det]
        exact Or.inl hx
      · rw [if_neg hc]
        exact hx

/-- Helper: `_stop_partition` aborts (with slot release) every `RUNNING` or
`TIMED_OUT` job of the partition. -/
theorem stop_partition_go_aborts (l : List AsyncJob) :
    ∀ (s : OrchestratorState) (j : AsyncJob), j ∈ l →
      (j.status = AsyncJobStatus.RUNNING ∨ j.status = AsyncJobStatus.TIMED_OUT) →
      (j.api_job_id, true) ∈ (stop_partition_go s l).aborted_jobs := by
  induction l with
  | nil => intro s j hj _; exact absurd hj (List.not_mem_nil j)
  | cons a rest ih =>
      intro s j hj hst
      rw [stop_partition_go]
      rcases List.mem_cons.1 hj with heq | hj
      · subst heq
        have hc : (j.status == AsyncJobStatus.RUNNING ||
            j.status == AsyncJobStatus.TIMED_OUT) = true := by
          rcases hst with h | h <;> simp [h]
        rw [if_pos hc]
        apply stop_partition_go_aborted_monotone
        simp [abort_job_det]
      · exact ih _ j hj hst

/-- C4 (amended): during triage, a tracked partition at the max-attempt bound
whose aggregate status is neither `COMPLETED` nor `RUNNING` has every
`RUNNING`/`TIMED_OUT` job aborted with its slot released, every job's slot
released, and the partition-failed error raised with the per-job terminal
statuses (by remote job id); the partition is neither yielded nor kept in the
accumulated tracked list.  (The raised error does not carry the stream slice;
see the counterexample.) -/
theorem c4_max_attempt_partition_fatal (p : AsyncPartition) (rest : List AsyncPartition)
    (s : OrchestratorState)
    (hrp : s.running_partitions = p :: rest)
    (hmax : p.has_reached_max_attempt = true)
    (hnc : p.status ≠ AsyncJobStatus.COMPLETED)
    (hnr : p.status ≠ AsyncJobStatus.RUNNING) :
    (triage_go s [] [] s.running_partitions).error = some (status_by_job_id p) ∧
    (triage_go s [] [] s.running_partitions).yielded = [] ∧
    (triage_go s [] [] s.running_partitions).new_running = [] ∧
    (∀ j ∈ p.jobs,
      j.api_job_id ∉ (triage_go s [] [] s.running_partitions).state.job_tracker.jobs) ∧
    (∀ j ∈ p.jobs,
      (j.status = AsyncJobStatus.RUNNING ∨ j.status = AsyncJobStatus.TIMED_OUT) →
      (j.api_job_id, true) ∈ (triage_go s [] [] s.running_partitions).state.aborted_jobs) := by
  have hb1 : (p.status == AsyncJobStatus.COMPLETED) = false := by simp [hnc]
  have hb2 : (p.status == AsyncJobStatus.RUNNING) = false := by simp [hnr]
  have ht : triage_go s [] [] s.running_partitions =
      { yielded := [], new_running := [], error := some (status_by_job_id p),
        state := stop_partition s p } := by
    rw [hrp]
    simp [triage_go, hb1, hb2, hmax]
  rw [ht]
  refine ⟨rfl, rfl, rfl, ?_, ?_⟩
  · intro j hj
    exact stop_partition_go_removes p.jobs s j hj
  · intro j hj hst
    exact stop_partition_go_aborts p.jobs s j hj hst

/-- Witness for C4 at a concrete partition with one `FAILED` job at the
attempt bound. -/
theorem c4_max_attempt_partition_fatal_witness :
    let j : AsyncJob := { api_job_id := 3, job_parameters := 9, status := AsyncJobStatus.TIMED_OUT }
    let p : AsyncPartition := { attempts_per_job := [(j, 3)], stream_slice := 9 }
    let s : OrchestratorState :=
      { initial_state [] 1 with
          running_partitions := [p],
          job_tracker := { limit := 1, jobs := [3] } }
    (triage_go s [] [] s.running_partitions).error = some (status_by_job_id p) ∧
    (triage_go s [] [] s.running_partitions).yielded = [] ∧
    (triage_go s [] [] s.running_partitions).new_running = [] ∧
    (∀ j0 ∈ p.jobs,
      j0.api_job_id ∉ (triage_go s [] [] s.running_partitions).state.job_tracker.jobs) ∧
    (∀ j0 ∈ p.jobs,
      (j0.status = AsyncJobStatus.RUNNING ∨ j0.status = AsyncJobStatus.TIMED_OUT) →
      (j0.api_job_id, true) ∈ (triage_go s [] [] s.running_partitions).state.aborted_jobs) :=
  c4_max_attempt_partition_fatal _ [] _ rfl (by decide) (by decide) (by decide)

/-- C4 counterexample to the claim as stated: the partition-failed error is
built solely from `status_by_job_id` (plus a constant message prefix), so two
partitions identical except for their stream slice raise identical errors —
the error does not identify the slice. -/
theorem c4_error_does_not_identify_slice_counterexample :
    let j : AsyncJob := { api_job_id := 1, job_parameters := 0, status := AsyncJobStatus.FAILED }
    let p1 : AsyncPartition := { attempts_per_job := [(j, 3)], stream_slice := 100 }
    let p2 : AsyncPartition := { attempts_per_job := [(j, 3)], stream_slice := 200 }
    let s1 : OrchestratorState := { initial_state [] 1 with running_partitions := [p1] }
    let s2 : OrchestratorState := { initial_state [] 1 with running_partitions := [p2] }
    p1.stream_slice ≠ p2.stream_slice ∧
    (triage_go s1 [] [] s1.running_partitions).error = some [(1, AsyncJobStatus.FAILED)] ∧
    (triage_go s2 [] [] s2.running_partitions).error =
      (triage_go s1 [] [] s1.running_partitions).error :=
  ⟨by decide, by decide, by decide⟩

/-- Helper: the completed-job release loop is the identity when the partition
holds no `COMPLETED` job. -/
theorem release_completed_jobs_go_id (l : List AsyncJob) :
    ∀ (s : OrchestratorState), (∀ j ∈ l, j.status ≠ AsyncJobStatus.COMPLETED) →
      release_completed_jobs_go s l = s := by
  induction l with
  | nil => intro s _; rfl
  | cons a rest ih =>
      intro s h
      rw [release_completed_jobs_go]
      have hb : (a.status == AsyncJobStatus.COMPLETED) = false := by
        simp [h a (List.mem_cons_self a rest)]
      rw [if_neg (by simp [hb])]
      exact ih s (fun j hj => h j (List.mem_cons_of_mem a hj))

/-- C5: a tracked partition with a `FAILED` or `TIMED_OUT` job and attempts
remaining is handled by triage as follows: only its `TIMED_OUT` job is aborted
and its slot is not released (the tracker is untouched), and the partition is
reinserted at the front of the tracked list, ahead of a partition that was
tracked before it; on the next retry pass its failed or timed-out job is
replaced via a start that reuses the prior job's slot (bound through the prior
job's remote id, reserving nothing, so the outstanding slot count is
unchanged) by a new `RUNNING` job with the same parameters at attempt count
one greater. -/
theorem c5_retry_partition_front_and_slot_reuse (q p : AsyncPartition)
    (j : AsyncJob) (a : Nat) (s : OrchestratorState)
    (hq : ∀ jq ∈ q.jobs, jq.status = AsyncJobStatus.RUNNING)
    (hp : p.attempts_per_job = [(j, a)])
    (hj : j.status = AsyncJobStatus.FAILED ∨ j.status = AsyncJobStatus.TIMED_OUT)
    (ha : a < 3)
    (hrp : s.running_partitions = [q, p]) :
    (triage_go s [] [] s.running_partitions =
      { yielded := [],
        new_running := [p, q],
        error := none,
        state := { s with
          running_partitions := [p, q],
          aborted_jobs := s.aborted_jobs ++
            (if j.status = AsyncJobStatus.TIMED_OUT then [(j.api_job_id, false)] else []) } }) ∧
    (∀ s0 : OrchestratorState,
      retry_pass_go s0 [] [p] =
        (none, { s0 with
          job_tracker := s0.job_tracker.add_job j.api_job_id s0.next_id,
          next_id := s0.next_id + 1,
          started_slices := s0.started_slices ++ [j.job_parameters],
          running_partitions :=
            [{ p with attempts_per_job :=
                [({ api_job_id := s0.next_id, job_parameters := j.job_parameters,
                    status := AsyncJobStatus.RUNNING }, a + 1)] }] })) ∧
    (∀ (t : JobTracker) (nid : Nat),
      (t.add_job j.api_job_id nid).jobs.length = t.jobs.length) := by
  have hpj : p.jobs = [j] := by simp [AsyncPartition.jobs, hp]
  have hjm : j ∈ p.jobs := by rw [hpj]; exact List.mem_cons_self j []
  have hqs : q.status = AsyncJobStatus.RUNNING := by
    apply AsyncPartition.status_eq_running
    · intro jq hjq
      rw [hq jq hjq]
      decide
    · intro jq hjq
      rw [hq jq hjq]
      decide
    · intro hcon
      obtain ⟨jq, hjq⟩ := List.exists_mem_of_ne_nil q.jobs hcon.1
      have h1 := hq jq hjq
      have h2 := hcon.2 jq hjq
      rw [h1] at h2
      exact absurd h2 (by decide)
  have hps : p.status = AsyncJobStatus.FAILED ∨ p.status = AsyncJobStatus.TIMED_OUT := by
    rcases hj with h | h
    · exact Or.inl (AsyncPartition.status_eq_failed_of_mem p j hjm h)
    · refine Or.inr (AsyncPartition.status_eq_timed_out p ?_ j hjm h)
      intro jq hjq
      rw [hpj] at hjq
      rcases List.mem_cons.1 hjq with heq | hjq
      · rw [heq, h]
        decide
      · exact absurd hjq (List.not_mem_nil jq)
  have hmaxf : p.has_reached_max_attempt = false := by
    simp [AsyncPartition.has_reached_max_attempt, hp, MAX_NUMBER_OF_ATTEMPTS]
    omega
  have hrelq : release_completed_jobs s q = s := by
    apply release_completed_jobs_go_id
    intro jq hjq
    rw [hq jq hjq]
    decide
  have hb1 : (q.status == AsyncJobStatus.COMPLETED) = false := by simp [hqs]
  have hb2 : (q.status == AsyncJobStatus.RUNNING) = true := by simp [hqs]
  have hb3 : (p.status == AsyncJobStatus.COMPLETED) = false := by
    rcases hps with h | h <;> simp [h]
  have hb4 : (p.status == AsyncJobStatus.RUNNING) = false := by
    rcases hps with h | h <;> simp [h]
  refine ⟨?_, ?_, ?_⟩
  · have hstep : triage_go s [] [] s.running_partitions =
        triage_go (release_completed_jobs (stop_timed_out_jobs s p) p) [] [p, q] [] := by
      rw [hrp]
      simp [triage_go, hb1, hb2, hb3, hb4, hmaxf, hrelq]
    rw [hstep]
    rcases hj with hcase | hcase
    · have hstop : stop_timed_out_jobs s p = s := by
        unfold stop_timed_out_jobs
        rw [hpj]
        rw [stop_timed_out_jobs_go]
        rw [if_neg (by simp [hcase])]
        rfl
      have hrelp : release_completed_jobs s p = s := by
        apply release_completed_jobs_go_id
        intro jq hjq
        rw [hpj] at hjq
        rcases List.mem_cons.1 hjq with heq | hjq
        · rw [heq, hcase]; decide
        · exact absurd hjq (List.not_mem_nil jq)
      rw [hstop, hrelp]
      simp [triage_go, hcase]
    · have hstop : stop_timed_out_jobs s p =
          { s with aborted_jobs := s.aborted_jobs ++ [(j.api_job_id, false)] } := by
        unfold stop_timed_out_jobs
        rw [hpj]
        rw [stop_timed_out_jobs_go]
        rw [if_pos (by simp [hcase])]
        simp [abort_job_det]
        rfl
      have hrelp : release_completed_jobs
          { s with aborted_jobs := s.aborted_jobs ++ [(j.api_job_id, false)] } p =
          { s with aborted_jobs := s.aborted_jobs ++ [(j.api_job_id, false)] } := by
        apply release_completed_jobs_go_id
        intro jq hjq
        rw [hpj] at hjq
        rcases List.mem_cons.1 hjq with heq | hjq
        · rw [heq, hcase]; decide
        · exact absurd hjq (List.not_mem_nil jq)
      rw [hstop, hrelp]
      simp [triage_go, hcase]
  · intro s0
    have hfilt : jobs_to_replace p = [j] := by
      unfold jobs_to_replace
      rw [hpj]
      rcases hj with h | h <;> simp [h]
    have hrep : p.replace_job j
        [{ api_job_id := s0.next_id, job_parameters := j.job_parameters,
           status := AsyncJobStatus.RUNNING }] =
        (none, { p with attempts_per_job :=
          [({ api_job_id := s0.next_id, job_parameters := j.job_parameters,
              status := AsyncJobStatus.RUNNING }, a + 1)] }) := by
      have h3 : ¬ (MAX_NUMBER_OF_ATTEMPTS ≤ a) := by
        simp [MAX_NUMBER_OF_ATTEMPTS]
        omega
      simp [AsyncPartition.replace_job, hp, h3]
    simp [retry_pass_go, replace_failed_jobs_go, hfilt, start_job_reuse_det, hrep]
  · intro t nid
    simp [JobTracker.add_job]

/-- Witness for C5 at a concrete pair of partitions: one with a `RUNNING`
job tracked first, then one whose single job is `TIMED_OUT` at attempt 1. -/
theorem c5_retry_partition_front_and_slot_reuse_witness :
    let jq : AsyncJob := { api_job_id := 1, job_parameters := 3, status := AsyncJobStatus.RUNNING }
    let j : AsyncJob := { api_job_id := 2, job_parameters := 4, status := AsyncJobStatus.TIMED_OUT }
    let q : AsyncPartition := { attempts_per_job := [(jq, 1)], stream_slice := 3 }
    let p : AsyncPartition := { attempts_per_job := [(j, 1)], stream_slice := 4 }
    let s : OrchestratorState :=
      { initial_state [] 2 with
          running_partitions := [q, p],
          job_tracker := { limit := 2, jobs := [1, 2] } }
    (triage_go s [] [] s.running_partitions =
      { yielded := [],
        new_running := [p, q],
        error := none,
        state := { s with
          running_partitions := [p, q],
          aborted_jobs := s.aborted_jobs ++
            (if j.status = AsyncJobStatus.TIMED_OUT then [(j.api_job_id, false)] else []) } }) ∧
    (∀ s0 : OrchestratorState,
      retry_pass_go s0 [] [p] =
        (none, { s0 with
          job_tracker := s0.job_tracker.add_job j.api_job_id s0.next_id,
          next_id := s0.next_id + 1,
          started_slices := s0.started_slices ++ [j.job_parameters],
          running_partitions :=
            [{ p with attempts_per_job :=
                [({ api_job_id := s0.next_id, job_parameters := j.job_parameters,
                    status := AsyncJobStatus.RUNNING }, 1 + 1) ] }] })) ∧
    (∀ (t : JobTracker) (nid : Nat),
      (t.add_job j.api_job_id nid).jobs.length = t.jobs.length) :=
  c5_retry_partition_front_and_slot_reuse _ _ _ 1 _ (by decide) rfl (by decide)
    (by decide) rfl

/-- The partitions created by one admission pass that starts jobs for the
given slices with fresh ids from `n0` (ids advance by two per start: one
intent id, one job id). -/
def fresh_partitions (n0 : Nat) : List Nat → List AsyncPartition
  | [] => []
  | slice :: rest =>
      { attempts_per_job :=
          [({ api_job_id := n0 + 1, job_parameters := slice, status := AsyncJobStatus.RUNNING }, 1)],
        stream_slice := slice } :: fresh_partitions (n0 + 2) rest

/-- The same partitions after the deterministic status refresh completed
their jobs. -/
def completed_partitions (n0 : Nat) : List Nat → List AsyncPartition
  | [] => []
  | slice :: rest =>
      { attempts_per_job :=
          [({ api_job_id := n0 + 1, job_parameters := slice, status := AsyncJobStatus.COMPLETED }, 1)],
        stream_slice := slice } :: completed_partitions (n0 + 2) rest

/-- The remote job ids bound into the tracker by that admission pass. -/
def fresh_job_ids (n0 : Nat) : List Nat → List Nat
  | [] => []
  | _ :: rest => (n0 + 1) :: fresh_job_ids (n0 + 2) rest

/-- Unfolding equation for `fresh_partitions` on a cons. -/
theorem fresh_partitions_cons (n0 x : Nat) (xs : List Nat) :
    fresh_partitions n0 (x :: xs) =
      { attempts_per_job :=
          [({ api_job_id := n0 + 1, job_parameters := x, status := AsyncJobStatus.RUNNING }, 1)],
        stream_slice := x } :: fresh_partitions (n0 + 2) xs := rfl

/-- Unfolding equation for `completed_partitions` on a cons. -/
theorem completed_partitions_cons (n0 x : Nat) (xs : List Nat) :
    completed_partitions n0 (x :: xs) =
      { attempts_per_job :=
          [({ api_job_id := n0 + 1, job_parameters := x, status := AsyncJobStatus.COMPLETED }, 1)],
        stream_slice := x } :: completed_partitions (n0 + 2) xs := rfl

/-- Unfolding equation for `fresh_job_ids` on a cons. -/
theorem fresh_job_ids_cons (n0 x : Nat) (xs : List Nat) :
    fresh_job_ids n0 (x :: xs) = (n0 + 1) :: fresh_job_ids (n0 + 2) xs := rfl

/-- Helper: every id produced by `fresh_job_ids n0` exceeds `n0`. -/
theorem fresh_job_ids_lb (l : List Nat) :
    ∀ (m i : Nat), i ∈ fresh_job_ids m l → m + 1 ≤ i := by
  induction l with
  | nil => intro m i hi; exact absurd hi (List.not_mem_nil i)
  | cons x xs ih =>
      intro m i hi
      rw [fresh_job_ids] at hi
      rcases List.mem_cons.1 hi with heq | hi
      · omega
      · have := ih (m + 2) i hi
        omega

/-- Characterization of the admission pass from an arbitrary state whose
tracker ids are all below the fresh-id counter: with
`k = min (limit - outstanding) (number of slices)`, exactly the first `k`
slices are started (each as a fresh single-job `RUNNING` partition whose job
id is bound in the tracker), the remaining slices stay, in order, at the
front of the iterator, the exhaustion flag is set only if all slices were
admitted, and no error escapes. -/
theorem admission_go_spec (l : List Nat) :
    ∀ (s : OrchestratorState), (∀ i ∈ s.job_tracker.jobs, i < s.next_id) →
      admission_go l s =
        { slice_iterator :=
            l.drop (min (s.job_tracker.limit - s.job_tracker.jobs.length) l.length),
          running_partitions := s.running_partitions ++
            fresh_partitions s.next_id
              (l.take (min (s.job_tracker.limit - s.job_tracker.jobs.length) l.length)),
          job_tracker :=
            { limit := s.job_tracker.limit,
              jobs := s.job_tracker.jobs ++
                fresh_job_ids s.next_id
                  (l.take (min (s.job_tracker.limit - s.job_tracker.jobs.length) l.length)) },
          has_started_a_job :=
            (if min (s.job_tracker.limit - s.job_tracker.jobs.length) l.length = 0 then
              s.has_started_a_job else true),
          has_consumed_every_slice :=
            (if l.length ≤ s.job_tracker.limit - s.job_tracker.jobs.length then true
             else s.has_consumed_every_slice),
          non_breaking_exceptions := s.non_breaking_exceptions,
          next_id := s.next_id +
            2 * min (s.job_tracker.limit - s.job_tracker.jobs.length) l.length,
          started_slices := s.started_slices ++
            l.take (min (s.job_tracker.limit - s.job_tracker.jobs.length) l.length),
          aborted_jobs := s.aborted_jobs } := by
  induction l with
  | nil =>
      intro s _
      simp [admission_go, fresh_partitions, fresh_job_ids]
  | cons slice rest ih =>
      intro s hlt
      by_cases hroom : s.job_tracker.limit ≤ s.job_tracker.jobs.length
      · have hint : s.job_tracker.try_to_get_intent s.next_id = none := by
          simp [JobTracker.try_to_get_intent, hroom]
        have h0 : s.job_tracker.limit - s.job_tracker.jobs.length = 0 := by omega
        rw [admission_go, hint]
        simp [h0, fresh_partitions, fresh_job_ids]
      · push_neg at hroom
        have hint : s.job_tracker.try_to_get_intent s.next_id =
            some (s.next_id,
              { s.job_tracker with jobs := s.job_tracker.jobs ++ [s.next_id] }) := by
          simp [JobTracker.try_to_get_intent, Nat.not_le.2 hroom]
        have hbind : ({ s.job_tracker with
              jobs := s.job_tracker.jobs ++ [s.next_id] } : JobTracker).add_job
              s.next_id (s.next_id + 1) =
            { s.job_tracker with jobs := s.job_tracker.jobs ++ [s.next_id + 1] } := by
          simp only [JobTracker.add_job, List.map_append]
          rw [map_rebind_of_not_mem s.job_tracker.jobs s.next_id (s.next_id + 1)
            (fun hm => absurd (hlt _ hm) (lt_irrefl _))]
          simp
        have hstep : admission_go (slice :: rest) s =
            admission_go rest
              { s with
                slice_iterator := rest
                job_tracker :=
                  { s.job_tracker with jobs := s.job_tracker.jobs ++ [s.next_id + 1] }
                next_id := s.next_id + 2
                has_started_a_job := true
                running_partitions := s.running_partitions ++
                  [{ attempts_per_job :=
                       [({ api_job_id := s.next_id + 1, job_parameters := slice,
                            status := AsyncJobStatus.RUNNING }, 1)],
                     stream_slice := slice }]
                started_slices := s.started_slices ++ [slice] } := by
          simp only [admission_go, hint, hbind]
        rw [hstep]
        have hlt2 : ∀ i ∈ s.job_tracker.jobs ++ [s.next_id + 1], i < s.next_id + 2 := by
          intro i hi
          simp only [List.mem_append, List.mem_singleton] at hi
          rcases hi with hi | hi
          · have := hlt i hi
            omega
          · omega
        rw [ih _ (fun i hi => hlt2 i hi)]
        have hlen : (s.job_tracker.jobs ++ [s.next_id + 1]).length =
            s.job_tracker.jobs.length + 1 := by
          simp
        simp only [hlen]
        have hmin : min (s.job_tracker.limit - (s.job_tracker.jobs.length + 1))
              rest.length + 1 =
            min (s.job_tracker.limit - s.job_tracker.jobs.length) (rest.length + 1) := by
          omega
        rw [OrchestratorState.mk.injEq]
        refine ⟨?_, ?_, ?_, ?_, ?_, ?_, ?_, ?_, ?_⟩
        · rw [List.length_cons, ← hmin, List.drop_succ_cons]
        · rw [List.length_cons, ← hmin, List.take_succ_cons, List.append_assoc]
          rw [fresh_partitions_cons]
          rfl
        · rw [JobTracker.mk.injEq]
          refine ⟨rfl, ?_⟩
          rw [List.length_cons, ← hmin, List.take_succ_cons, List.append_assoc]
          rw [fresh_job_ids_cons]
          rfl
        · rw [List.length_cons, ← hmin]
          simp
        · have hiff : (rest.length ≤ s.job_tracker.limit - (s.job_tracker.jobs.length + 1)) ↔
              ((slice :: rest).length ≤
                s.job_tracker.limit - s.job_tracker.jobs.length) := by
            simp only [List.length_cons]
            omega
          by_cases hc : rest.length ≤ s.job_tracker.limit - (s.job_tracker.jobs.length + 1)
          · rw [if_pos hc, if_pos (hiff.1 hc)]
          · rw [if_neg hc, if_neg (fun hcon => hc (hiff.2 hcon))]
        · rfl
        · rw [List.length_cons, ← hmin]
          omega
        · rw [List.length_cons, ← hmin, List.take_succ_cons]
          rw [List.append_assoc]
          rfl
        · rfl

/-- Helper: the deterministic status refresh turns the admission pass's fresh
`RUNNING` partitions into the corresponding `COMPLETED` partitions. -/
theorem fresh_partitions_complete (l : List Nat) :
    ∀ n0, (fresh_partitions n0 l).map (fun p =>
        { p with attempts_per_job :=
            p.attempts_per_job.map (fun e => (complete_running_job e.1, e.2)) }) =
      completed_partitions n0 l := by
  induction l with
  | nil => intro n0; rfl
  | cons x xs ih =>
      intro n0
      rw [fresh_partitions_cons, completed_partitions_cons, List.map_cons, ih]
      congr 1

/-- Helper: `_update_jobs_status` on a state tracking at least one fresh
`RUNNING` partition performs the batched refresh, completing every job. -/
theorem update_jobs_status_det_fresh (x : Nat) (xs : List Nat) (n0 : Nat)
    (s : OrchestratorState)
    (hrun : s.running_partitions = fresh_partitions n0 (x :: xs)) :
    update_jobs_status_det s =
      { s with running_partitions := completed_partitions n0 (x :: xs) } := by
  have hc : (s.running_partitions.any (fun p =>
      p.jobs.any (fun j => j.status == AsyncJobStatus.RUNNING))) = true := by
    rw [hrun, fresh_partitions_cons]
    simp [AsyncPartition.jobs]
  unfold update_jobs_status_det
  rw [if_pos hc, hrun, fresh_partitions_complete]

/-- The single completed partition produced for slice `x` by an admission
that drew ids from `n0`. -/
def completed_partition_one (n0 x : Nat) : AsyncPartition :=
  { attempts_per_job :=
      [({ api_job_id := n0 + 1, job_parameters := x, status := AsyncJobStatus.COMPLETED }, 1)],
    stream_slice := x }

/-- Helper: triage on a list of fully completed fresh partitions yields all of
them in order, releases each bound slot (emptying a tracker that held exactly
those ids), keeps the accumulator as the new tracked list and raises no
error. -/
theorem triage_go_completed (l : List Nat) :
    ∀ (n0 : Nat) (s : OrchestratorState) (ys cr : List AsyncPartition),
      s.job_tracker.jobs = fresh_job_ids n0 l →
      triage_go s ys cr (completed_partitions n0 l) =
        { yielded := ys ++ completed_partitions n0 l,
          new_running := cr,
          error := none,
          state := { s with
            job_tracker := { limit := s.job_tracker.limit, jobs := [] },
            running_partitions := cr } } := by
  induction l with
  | nil =>
      intro n0 s ys cr hjobs
      have hjobs2 : s.job_tracker.jobs = [] := hjobs
      have hcp : completed_partitions n0 [] = [] := rfl
      rw [hcp, triage_go]
      have htr : ({ limit := s.job_tracker.limit, jobs := [] } : JobTracker) =
          s.job_tracker := by
        rw [← hjobs2]
      rw [htr]
      simp
  | cons x xs ih =>
      intro n0 s ys cr hjobs
      have hcc : completed_partitions n0 (x :: xs) =
          completed_partition_one n0 x :: completed_partitions (n0 + 2) xs := rfl
      rw [hcc, triage_go]
      have hcond : ((completed_partition_one n0 x).status ==
          AsyncJobStatus.COMPLETED) = true := rfl
      rw [if_pos hcond]
      have hnm : (n0 + 1) ∉ fresh_job_ids (n0 + 2) xs := by
        intro hm
        have := fresh_job_ids_lb xs (n0 + 2) _ hm
        omega
      have hrel : release_completed_jobs s (completed_partition_one n0 x) =
          { s with job_tracker :=
              { limit := s.job_tracker.limit, jobs := fresh_job_ids (n0 + 2) xs } } := by
        unfold release_completed_jobs
        have hjl : (completed_partition_one n0 x).jobs =
            [{ api_job_id := n0 + 1, job_parameters := x,
               status := AsyncJobStatus.COMPLETED }] := rfl
        rw [hjl, release_completed_jobs_go, if_pos (by rfl), release_completed_jobs_go]
        have hrm : s.job_tracker.remove_job (n0 + 1) =
            { limit := s.job_tracker.limit, jobs := fresh_job_ids (n0 + 2) xs } := by
          unfold JobTracker.remove_job
          rw [hjobs, fresh_job_ids_cons, List.filter_cons]
          rw [if_neg (by simp)]
          rw [filter_ne_of_not_mem _ _ hnm]
        rw [hrm]
      rw [hrel]
      rw [ih (n0 + 2) _ (ys ++ [completed_partition_one n0 x]) cr rfl]
      simp

/-- Helper: one loop iteration that starts jobs without error and then passes
the termination check returns the sequence gathered so far. -/
theorem run_det_succ_finished (fuel : Nat) (s : OrchestratorState)
    (ys : List AsyncPartition) (s1 : OrchestratorState)
    (h : start_jobs_det s = (none, s1))
    (hcond : ((s1.has_started_a_job || s1.has_consumed_every_slice) &&
        s1.running_partitions.isEmpty) = true) :
    run_det (fuel + 1) s ys = RunResult.finished s1 ys := by
  rw [run_det, h]
  simp only [hcond]
  simp

/-- Helper: one loop iteration that starts jobs without error, fails the
termination check, completes the status refresh and triages without a
partition-fatal error continues with the triaged state, appending the yielded
partitions. -/
theorem run_det_succ_continue (fuel : Nat) (s : OrchestratorState)
    (ys : List AsyncPartition) (s1 s3 : OrchestratorState) (t : TriageOutcome)
    (h : start_jobs_det s = (none, s1))
    (hcond : ((s1.has_started_a_job || s1.has_consumed_every_slice) &&
        s1.running_partitions.isEmpty) = false)
    (hupd : update_jobs_status_det s1 = s3)
    (htri : triage_go s3 [] [] s3.running_partitions = t)
    (herr : t.error = none) :
    run_det (fuel + 1) s ys = run_det fuel t.state (ys ++ t.yielded) := by
  rw [run_det, h]
  simp only [hcond, hupd, htri, herr]
  simp

/-- Helper: from a clean state (no tracked partitions, empty tracker, positive
concurrency limit), the loop runs to normal termination within
`length of input + 2` iterations, starts a job for every input slice in
order, drains the iterator and accumulates no non-breaking exception.  Proved
by induction over the fuel: each iteration admits
`min limit (slices remaining)` slices, the deterministic repository completes
them, and triage yields and releases them, returning to a clean state. -/
theorem run_det_clean (fuel : Nat) :
    ∀ (l : List Nat) (s : OrchestratorState) (ys : List AsyncPartition),
      l.length + 2 ≤ fuel →
      s.running_partitions = [] →
      s.job_tracker.jobs = [] →
      s.slice_iterator = l →
      1 ≤ s.job_tracker.limit →
      s.has_consumed_every_slice = true →
      ∃ (s1 : OrchestratorState) (ys1 : List AsyncPartition),
        run_det fuel s ys = RunResult.finished s1 (ys ++ ys1) ∧
        s1.started_slices = s.started_slices ++ l ∧
        s1.slice_iterator = [] ∧
        s1.non_breaking_exceptions = s.non_breaking_exceptions ∧
        s1.running_partitions = [] := by
  induction fuel with
  | zero =>
      intro l s ys hf
      exact absurd hf (by omega)
  | succ fuel ih =>
      intro l s ys hf hrun htr hl hlim hflag
      have hretry : retry_pass_go s [] s.running_partitions =
          (none, { s with running_partitions := [] }) := by
        rw [hrun]
        rfl
      have hseq : ({ s with running_partitions := [] } : OrchestratorState) = s := by
        rw [← hrun]
      have hstart : start_jobs_det s = (none, admission_go l s) := by
        rw [start_jobs_det, hretry, hseq]
        show (none, admission_go s.slice_iterator s) = (none, admission_go l s)
        rw [hl]
      cases l with
      | nil =>
          have hadm : admission_go [] s =
              { s with slice_iterator := [], has_consumed_every_slice := true } := rfl
          rw [hadm] at hstart
          refine ⟨{ s with slice_iterator := [], has_consumed_every_slice := true }, [],
            ?_, ?_, ?_, ?_, ?_⟩
          · rw [List.append_nil]
            refine run_det_succ_finished fuel s ys _ hstart ?_
            show ((s.has_started_a_job || true) && s.running_partitions.isEmpty) = true
            rw [hrun]
            simp
          · show s.started_slices = s.started_slices ++ []
            simp
          · rfl
          · rfl
          · exact hrun
      | cons x xs =>
          have hadm := admission_go_spec (x :: xs) s
            (fun i hi => absurd (htr ▸ hi) (List.not_mem_nil i))
          rw [htr, hrun] at hadm
          simp only [List.length_nil, Nat.sub_zero, List.nil_append] at hadm
          have hk1 : 1 ≤ min s.job_tracker.limit (x :: xs).length := by
            simp only [List.length_cons]
            omega
          obtain ⟨k, hk⟩ : ∃ k, min s.job_tracker.limit (x :: xs).length = k + 1 :=
            ⟨min s.job_tracker.limit (x :: xs).length - 1, by omega⟩
          simp only [hk, List.take_succ_cons, List.drop_succ_cons] at hadm
          rw [if_neg (Nat.succ_ne_zero k)] at hadm
          rw [hflag, ite_self] at hadm
          rw [hadm] at hstart
          have hiter := run_det_succ_continue fuel s ys _ _ _ hstart rfl
            (update_jobs_status_det_fresh x (xs.take k) s.next_id _ rfl)
            (triage_go_completed (x :: xs.take k) s.next_id _ [] [] rfl) rfl
          have hfuel : (xs.drop k).length + 2 ≤ fuel := by
            have hf2 := hf
            simp only [List.length_cons] at hf2
            rw [List.length_drop]
            omega
          obtain ⟨s5, ys5, hrun5, hst5, hit5, hnb5, hrp5⟩ :=
            ih (xs.drop k)
              { slice_iterator := xs.drop k,
                running_partitions := [],
                job_tracker := { limit := s.job_tracker.limit, jobs := [] },
                has_started_a_job := true,
                has_consumed_every_slice := true,
                non_breaking_exceptions := s.non_breaking_exceptions,
                next_id := s.next_id + 2 * (k + 1),
                started_slices := s.started_slices ++ (x :: xs.take k),
                aborted_jobs := s.aborted_jobs }
              (ys ++ completed_partitions s.next_id (x :: xs.take k))
              hfuel rfl rfl rfl hlim rfl
          rw [List.append_assoc] at hrun5
          refine ⟨s5, completed_partitions s.next_id (x :: xs.take k) ++ ys5,
            ?_, ?_, ?_, ?_, ?_⟩
          · rw [hiter]
            exact hrun5
          · rw [hst5]
            show (s.started_slices ++ (x :: xs.take k)) ++ xs.drop k =
              s.started_slices ++ (x :: xs)
            rw [List.append_assoc, List.cons_append, List.take_append_drop]
          · exact hit5
          · exact hnb5
          · exact hrp5

/-- C2: with a positive concurrency limit and admission failures limited to
the concurrency-limit condition (the deterministic environment raises nothing
else and completes every started job), no slice is dropped.  First conjunct:
when the limit is hit, the pulled slice is back at the front of the remaining
input and the pass returns silently.  Second conjunct: over the whole run the
loop terminates normally having started a job for every one of the N slices
in order, with the input drained and no error recorded (the limit condition
is never surfaced to the caller). -/
theorem c2_no_slice_dropped (slices : List Nat) (limit : Nat) (hlim : 1 ≤ limit) :
    (∀ (s : OrchestratorState) (x : Nat) (rest : List Nat),
      s.job_tracker.limit ≤ s.job_tracker.jobs.length →
      admission_go (x :: rest) s = { s with slice_iterator := x :: rest }) ∧
    (∃ (s1 : OrchestratorState) (ys : List AsyncPartition),
      run_det (slices.length + 2) (initial_state slices limit) [] =
        RunResult.finished s1 ys ∧
      s1.started_slices = slices ∧
      s1.slice_iterator = [] ∧
      s1.non_breaking_exceptions = []) := by
  constructor
  · intro s x rest hfull
    rw [admission_go]
    have hint : s.job_tracker.try_to_get_intent s.next_id = none := by
      simp [JobTracker.try_to_get_intent, hfull]
    rw [hint]
  · obtain ⟨s1, ys1, hrd, hst, hit, hnb, _⟩ :=
      run_det_clean (slices.length + 2) slices (initial_state slices limit) []
        (le_refl _) rfl rfl rfl hlim rfl
    refine ⟨s1, [] ++ ys1, hrd, ?_, hit, ?_⟩
    · rw [hst]
      rfl
    · rw [hnb]
      rfl

/-- Witness for C2: three slices under concurrency limit 1; plus the pushback
conjunct at a concrete full tracker. -/
theorem c2_no_slice_dropped_witness :
    (admission_go [7] (initial_state [9] 0) =
      { initial_state [9] 0 with slice_iterator := [7] }) ∧
    (∃ (s1 : OrchestratorState) (ys : List AsyncPartition),
      run_det 5 (initial_state [10, 20, 30] 1) [] =
        RunResult.finished s1 ys ∧
      s1.started_slices = [10, 20, 30] ∧
      s1.slice_iterator = [] ∧
      s1.non_breaking_exceptions = []) :=
  ⟨(c2_no_slice_dropped [10, 20, 30] 1 (by decide)).1 (initial_state [9] 0) 7 []
      (by decide),
    (c2_no_slice_dropped [10, 20, 30] 1 (by decide)).2⟩
